import Mathlib

/-!
# Verification of the smart-agent core control logic

A shallow embedding, in Lean 4, of the core control logic of the
`smart-agent` repository:

* `src/objectives.ts` — the objective hydrator's validators
  (`command_succeeds`, `command_output_contains`, …);
* `src/agent.ts` — the `Agent` execution loop (`executeLoop`), the
  tool-invocation extractor (`parseToolCallsFromText`) and the
  per-objective validation (`checkObjectives`);
* `src/session.ts` — the `Session` orchestrator's confirmation gate,
  its completed-objective ledger, and the message classifier
  (`classifyMessage`).

JavaScript dynamic values that flow through the code (tool parameters,
parsed model output) are modelled by an explicit `Json` type together
with JS truthiness, property access and `String()` conversion.
Stateful generator code is modelled by explicit state passing: the loop
is a function from a per-iteration environment (abort flag, LLM
outcome, tool execution outcomes) to the list of emitted events.
Wall-clock data (the `elapsed` payload of some events, timestamps) is
not modelled; event payloads otherwise follow the source.
-/

namespace SmartAgent

/-! ## JSON values (JavaScript dynamic data)

`params`, parsed model output and tool-call arguments are
`Record<string, any>` / arbitrary JSON in the source.  `Json` models
the values produced by `JSON.parse`.  Numbers are modelled as integers
(the payloads relevant to the claims carry no fractional numbers). -/

inductive Json where
  | null : Json
  | bool (b : Bool) : Json
  | num (n : Int) : Json
  | str (s : String) : Json
  | arr (elems : List Json) : Json
  | obj (fields : List (String × Json)) : Json

mutual

/-- Structural (value) equality of JSON values. -/
def Json.beq : Json → Json → Bool
  | .null, .null => true
  | .bool a, .bool b => a == b
  | .num a, .num b => a == b
  | .str a, .str b => a == b
  | .arr xs, .arr ys => Json.beqList xs ys
  | .obj xs, .obj ys => Json.beqFields xs ys
  | _, _ => false

def Json.beqList : List Json → List Json → Bool
  | [], [] => true
  | x :: xs, y :: ys => Json.beq x y && Json.beqList xs ys
  | _, _ => false

def Json.beqFields : List (String × Json) → List (String × Json) → Bool
  | [], [] => true
  | (k1, v1) :: xs, (k2, v2) :: ys => k1 == k2 && Json.beq v1 v2 && Json.beqFields xs ys
  | _, _ => false

end

/-- JS truthiness: `undefined`/`null`, `false`, `0`, `""` are falsy;
objects and arrays are always truthy. -/
def Json.truthy : Json → Bool
  | .null => false
  | .bool b => b
  | .num n => n != 0
  | .str s => s != ""
  | .arr _ => true
  | .obj _ => true

/-- Property access `j[k]` on a parsed JSON value: only objects have
properties; with duplicate keys `JSON.parse` keeps the last value. -/
def jsGet (j : Json) (k : String) : Option Json :=
  match j with
  | .obj fields => (fields.reverse.find? (fun f => f.1 == k)).map (·.2)
  | _ => none

/-- Truthiness of a possibly-absent property (`undefined` is falsy). -/
def truthyOpt : Option Json → Bool
  | none => false
  | some v => v.truthy

mutual

/-- JS `String(v)` conversion as used by template literals. -/
def jsToString : Json → String
  | .null => "null"
  | .bool b => if b then "true" else "false"
  | .num n => toString n
  | .str s => s
  | .arr elems => String.intercalate "," (jsToStringList elems)
  | .obj _ => "[object Object]"

def jsToStringList : List Json → List String
  | [] => []
  | x :: xs => jsToString x :: jsToStringList xs

end

/-- One escaped character of a JSON string literal. -/
def jsonEscapeChar (c : Char) : String :=
  if c = '"' then "\\\"" else if c = '\\' then "\\\\"
  else if c = '\n' then "\\n" else if c = '\t' then "\\t"
  else if c = '\r' then "\\r" else String.mk [c]

mutual

/-- Source: `JSON.stringify` (modelled with the common escapes). -/
def jsonStringify : Json → String
  | .null => "null"
  | .bool b => if b then "true" else "false"
  | .num n => toString n
  | .str s => "\"" ++ String.join (s.data.map jsonEscapeChar) ++ "\""
  | .arr elems => "[" ++ String.intercalate "," (jsonStringifyList elems) ++ "]"
  | .obj fields => "\x7b" ++ String.intercalate "," (jsonStringifyFields fields) ++ "\x7d"

def jsonStringifyList : List Json → List String
  | [] => []
  | x :: xs => jsonStringify x :: jsonStringifyList xs

def jsonStringifyFields : List (String × Json) → List String
  | [] => []
  | (k, v) :: fs =>
      (jsonStringify (.str k) ++ ":" ++ jsonStringify v) :: jsonStringifyFields fs

end

/-! ## String helpers with JavaScript semantics -/

/-- JS whitespace membership (the ASCII part of `\s`). -/
def isWs (c : Char) : Bool :=
  c = ' ' || c = '\t' || c = '\n' || c = '\r'

/-- JS `String.prototype.includes`: substring containment. -/
def strIncludes (hay needle : String) : Bool :=
  (List.range (hay.data.length + 1)).any fun i =>
    (hay.data.drop i).take needle.data.length == needle.data

mutual

/-- Source: `split(/\s+/)` helper: scanning inside a whitespace run. -/
def splitWsInRun : List Char → List String
  | [] => [""]
  | c :: r => if isWs c then splitWsInRun r else splitWsInTok r [c]

/-- Source: `split(/\s+/)` helper: scanning inside a token (`cur` is the
token's characters, reversed). -/
def splitWsInTok : List Char → List Char → List String
  | [], cur => [String.mk cur.reverse]
  | c :: r, cur =>
      if isWs c then String.mk cur.reverse :: splitWsInRun r
      else splitWsInTok r (c :: cur)

end

/-- JS `s.split(/\s+/)`: splits at maximal whitespace runs; a leading
run yields a leading `""` and a trailing run a trailing `""`, exactly
as in JavaScript. -/
def jsSplitWs (s : String) : List String :=
  match s.data with
  | [] => [""]
  | c :: r => if isWs c then "" :: splitWsInRun r else splitWsInTok r [c]

/-- JS `s.trim()` (ASCII whitespace). -/
def jsTrim (s : String) : String :=
  String.mk (((s.data.dropWhile isWs).reverse.dropWhile isWs).reverse)

/-- Source: `Array.prototype.findLast(p)`: the last element satisfying `p`.
Modelled, as in the ECMAScript specification, as a backwards scan. -/
def jsFindLast (p : α → Bool) (l : List α) : Option α :=
  l.reverse.find? p

/-! ## Core data model (`src/types.ts`) -/

/-- Source: `ToolResult` from `src/types.ts`. -/
structure ToolResult where
  success : Bool
  output : String
  error : Option String
  deriving DecidableEq, Repr

/-- Source: `ToolHistoryEntry` from `src/types.ts`; `params` is the dynamic
record the tool was invoked with. -/
structure ToolHistoryEntry where
  iteration : Nat
  tool : String
  params : Json
  result : ToolResult

/-- Source: `Message` from `src/types.ts` (the wall-clock timestamp is not
modelled; `agent.ts` never sets it). -/
structure Message where
  role : String
  content : String
  deriving DecidableEq, Repr

/-- Source: `AgentState` (the spec's RunState) from `src/types.ts`.
`touchedFiles` is a JS `Set`, modelled as an insertion-ordered
duplicate-free list of the added values. -/
structure AgentState where
  messages : List Message
  iteration : Nat
  toolHistory : List ToolHistoryEntry
  touchedFiles : List Json

/-- Source: `ObjectiveResult` from `src/types.ts`. -/
structure ObjectiveResult where
  met : Bool
  reason : String
  deriving DecidableEq, Repr

/-! ## Objective validators (`src/objectives.ts`)

`hydrateObjective` turns a `PlannedObjective` into a validator
closure.  The two history-searching validators are pure functions of
the run state and are embedded here directly.

The keyword computation is
`cmd.split(/\s+/).filter(w => w.length > 1)`; splitting on single
whitespace characters instead of runs differs from `/\s+/` only by
empty tokens, which the length filter removes, so `jsSplitWs` (which
follows `/\s+/` exactly) composed with the filter is the source's
keyword list. -/

/-- The keyword list of `command_succeeds` / `command_output_contains`:
whitespace-delimited tokens of the target command of length > 1
(`objectives.ts` lines 52 and 71). -/
def keywordsOf (cmd : String) : List String :=
  (jsSplitWs cmd).filter (fun w => w.length > 1)

/-- The history-entry predicate of both command validators
(`objectives.ts` lines 53-55 / 72-74):
`t.tool === "exec" && keywords.some(kw => t.params.command?.includes(kw))`.
A non-string `command` param would raise a `TypeError` in JavaScript;
the model restricts attention to states whose `command` params are
strings or absent, on which `?.includes` is the check modelled here. -/
def entryMatches (keywords : List String) (t : ToolHistoryEntry) : Bool :=
  t.tool == "exec" && keywords.any (fun kw =>
    match jsGet t.params "command" with
    | some (.str s) => strIncludes s kw
    | _ => false)

/-- Validator of a hydrated `command_succeeds` objective
(`objectives.ts` lines 50-61). -/
def commandSucceedsValidate (cmd : String) (state : AgentState) : ObjectiveResult :=
  let keywords := keywordsOf cmd
  match jsFindLast (entryMatches keywords) state.toolHistory with
  | none => { met := false, reason := "Command \"" ++ cmd ++ "\" not executed yet" }
  | some m =>
      { met := m.result.success
        reason := if m.result.success then "Command succeeded"
                  else "Command failed: " ++ (m.result.error.getD "undefined") }

/-- Validator of a hydrated `command_output_contains` objective
(`objectives.ts` lines 68-80). -/
def commandOutputContainsValidate (cmd text : String) (state : AgentState) : ObjectiveResult :=
  let keywords := keywordsOf cmd
  match jsFindLast (entryMatches keywords) state.toolHistory with
  | none => { met := false, reason := "Command \"" ++ cmd ++ "\" not executed yet" }
  | some m =>
      if !(strIncludes m.result.output text) then
        { met := false, reason := "Output missing: \"" ++ text ++ "\"" }
      else
        { met := true, reason := "Output contains \"" ++ text ++ "\"" }

/-! ### The spec's reading of the keyword match (for claim C1)

The specification describes the match as requiring **every**
whitespace-delimited token of the target command to appear in the
recorded command.  The following definitions follow the spec's words
(not the source) so that the two readings can be compared. -/

/-- Spec-described predicate: the recorded command contains **every**
whitespace-delimited token of the target command as a substring. -/
def specEntryMatchesAll (cmd : String) (t : ToolHistoryEntry) : Bool :=
  t.tool == "exec" && (jsSplitWs cmd).all (fun kw =>
    match jsGet t.params "command" with
    | some (.str s) => strIncludes s kw
    | _ => false)

/-- Spec-described `command_succeeds` validator (claim C1's words):
backwards search with the every-token predicate. -/
def specCommandSucceedsValidate (cmd : String) (state : AgentState) : ObjectiveResult :=
  match jsFindLast (specEntryMatchesAll cmd) state.toolHistory with
  | none => { met := false, reason := "Command \"" ++ cmd ++ "\" not executed yet" }
  | some m =>
      { met := m.result.success
        reason := if m.result.success then "Command succeeded"
                  else "Command failed: " ++ (m.result.error.getD "undefined") }

/-! ### Amended reading (at-least-one keyword), written independently
of the source definitions: a backwards search expressed through
`List.find?` on the reversed history with an existential keyword
condition over the long-enough tokens. -/

/-- Amended-claim predicate: the recorded command is an `exec` entry
whose command contains **at least one** whitespace-delimited token of
the target of length ≥ 2. -/
def amendedEntryMatches (cmd : String) (t : ToolHistoryEntry) : Bool :=
  t.tool == "exec" &&
    ((jsSplitWs cmd).filter (fun w => 2 ≤ w.length)).any (fun kw =>
      match jsGet t.params "command" with
      | some (.str s) => strIncludes s kw
      | _ => false)

/-- Amended-claim `command_succeeds` result. -/
def amendedCommandSucceeds (cmd : String) (state : AgentState) : ObjectiveResult :=
  match state.toolHistory.reverse.find? (amendedEntryMatches cmd) with
  | none => { met := false, reason := "Command \"" ++ cmd ++ "\" not executed yet" }
  | some m =>
      { met := m.result.success
        reason := if m.result.success then "Command succeeded"
                  else "Command failed: " ++ (m.result.error.getD "undefined") }

/-- Amended-claim `command_output_contains` result. -/
def amendedCommandOutputContains (cmd text : String) (state : AgentState) : ObjectiveResult :=
  match state.toolHistory.reverse.find? (amendedEntryMatches cmd) with
  | none => { met := false, reason := "Command \"" ++ cmd ++ "\" not executed yet" }
  | some m =>
      if strIncludes m.result.output text then
        { met := true, reason := "Output contains \"" ++ text ++ "\"" }
      else
        { met := false, reason := "Output missing: \"" ++ text ++ "\"" }

/-! ### C1 / C9 theorems -/

/-- A concrete run state: one successful `exec` invocation that ran
`ls bar`. -/
def c1State : AgentState :=
  { messages := []
    iteration := 0
    toolHistory := [
      { iteration := 0
        tool := "exec"
        params := .obj [("command", .str "ls bar")]
        result := { success := true, output := "bar", error := none } }]
    touchedFiles := [] }

/-- Claim **C1, counterexample.**  For the target command `"ls foo"` and a
history whose only `exec` entry ran `"ls bar"`, the source validator
reports `met:true` (the single shared keyword `"ls"` suffices), while
the claim's every-token rule finds no match and requires `met:false`
with the not-executed reason.  The claim, as stated, is false. -/
theorem c1_counterexample :
    (commandSucceedsValidate "ls foo" c1State).met = true ∧
    (specCommandSucceedsValidate "ls foo" c1State).met = false ∧
    (specCommandSucceedsValidate "ls foo" c1State).reason
      = "Command \"ls foo\" not executed yet" := by
  refine ⟨?_, ?_, ?_⟩ <;> decide

theorem jsFindLast_eq_reverse_find (p : α → Bool) (l : List α) :
    jsFindLast p l = l.reverse.find? p := rfl

theorem entryMatches_eq_amended (cmd : String) (t : ToolHistoryEntry) :
    entryMatches (keywordsOf cmd) t = amendedEntryMatches cmd t := by
  unfold entryMatches amendedEntryMatches keywordsOf
  have hfilter : (jsSplitWs cmd).filter (fun w => w.length > 1)
      = (jsSplitWs cmd).filter (fun w => 2 ≤ w.length) := by
    apply List.filter_congr
    intro w _
    simp [Nat.lt_iff_add_one_le]
  rw [hfilter]

/-- Claim **C1, amended.**  For every `command_succeeds` or
`command_output_contains` objective and every run state, the hydrated
validator searches `toolHistory` backwards for the most recent entry
whose tool is `"exec"` and whose recorded command contains **at least
one** whitespace-delimited token of the target command **of length ≥ 2**
as a substring; no match yields `met:false` with the not-executed
reason, and a match yields `met:true` iff the recorded result succeeded
(and, for `command_output_contains`, iff the output contains the target
text). -/
theorem c1_amended (cmd text : String) (state : AgentState) :
    commandSucceedsValidate cmd state = amendedCommandSucceeds cmd state ∧
    commandOutputContainsValidate cmd text state
      = amendedCommandOutputContains cmd text state := by
  have hfun : entryMatches (keywordsOf cmd) = amendedEntryMatches cmd :=
    funext (entryMatches_eq_amended cmd)
  constructor
  · simp only [commandSucceedsValidate, amendedCommandSucceeds, jsFindLast, hfun]
  · simp only [commandOutputContainsValidate, amendedCommandOutputContains, jsFindLast, hfun]
    cases (state.toolHistory.reverse.find? (amendedEntryMatches cmd)) with
    | none => rfl
    | some m =>
        cases hs : strIncludes m.result.output text <;> simp [hs]

/-! ## Objectives and per-iteration validation (`src/agent.ts`)

An `Objective` carries a validator.  In the source the validator is an
async function that may throw; here it is a function into
`Except String ObjectiveResult`, `.error` modelling a thrown exception
carrying `e.message`. -/

/-- Source: `Objective` from `src/types.ts`. -/
structure Objective where
  name : String
  description : String
  validate : AgentState → Except String ObjectiveResult

/-- One element of the result array of `Agent.checkObjectives`. -/
structure CheckResult where
  name : String
  met : Bool
  reason : String
  deriving DecidableEq, Repr

/-- The per-objective try/catch body of `Agent.checkObjectives`
(`agent.ts` lines 506-512): a successful validation is recorded as-is;
a thrown exception becomes `met:false` with the exception message. -/
def mkCheckResult (o : Objective) (state : AgentState) : CheckResult :=
  match o.validate state with
  | .ok r => { name := o.name, met := r.met, reason := r.reason }
  | .error e => { name := o.name, met := false, reason := "Validator error: " ++ e }

/-- Source: `Agent.checkObjectives` (`agent.ts` lines 503-516): a `for` loop
over the objectives in declaration order, pushing one result each. -/
def checkObjectives (objectives : List Objective) (state : AgentState) : List CheckResult :=
  objectives.foldl (fun results o => results ++ [mkCheckResult o state]) []

theorem foldl_push_eq_append_map (f : α → β) :
    ∀ (l : List α) (acc : List β),
      l.foldl (fun rs o => rs ++ [f o]) acc = acc ++ l.map f := by
  intro l
  induction l with
  | nil => intro acc; simp
  | cons x xs ih => intro acc; simp [List.foldl_cons, ih, List.append_assoc]

theorem checkObjectives_eq_map (objectives : List Objective) (state : AgentState) :
    checkObjectives objectives state = objectives.map (mkCheckResult · state) := by
  unfold checkObjectives
  simpa using foldl_push_eq_append_map (mkCheckResult · state) objectives []

/-- Claim **C5.**  The objective check evaluates every objective's validator
against the current run state in declaration order and always returns
one result per objective: the `i`-th result comes from the `i`-th
objective, a throwing validator being converted to
`met:false, reason: "Validator error: " ++ message` without affecting
the other entries.  (`checkObjectives` is a total function: no
exception propagates.) -/
theorem c5_checkObjectives (objectives : List Objective) (state : AgentState) :
    (checkObjectives objectives state).length = objectives.length ∧
    ∀ i (h : i < objectives.length),
      (checkObjectives objectives state)[i]? =
        some (match (objectives.get ⟨i, h⟩).validate state with
              | .ok r => ⟨(objectives.get ⟨i, h⟩).name, r.met, r.reason⟩
              | .error e => ⟨(objectives.get ⟨i, h⟩).name, false, "Validator error: " ++ e⟩) := by
  rw [checkObjectives_eq_map]
  constructor
  · simp
  · intro i h
    rw [List.getElem?_map]
    rw [List.getElem?_eq_getElem (by simpa using h)]
    rfl

/-- Concrete objectives used to witness C5: one passing validator and
one that throws. -/
def c5Objs : List Objective :=
  [ { name := "ok", description := "passes", validate := fun _ => .ok ⟨true, "fine"⟩ },
    { name := "boom", description := "throws", validate := fun _ => .error "kaboom" } ]

/-- Empty run state used by several witnesses. -/
def emptyState : AgentState :=
  { messages := [], iteration := 0, toolHistory := [], touchedFiles := [] }

/-- Witness for C5 at a concrete objective list containing a throwing
validator. -/
theorem c5_checkObjectives_witness :
    1 < c5Objs.length ∧
    (checkObjectives c5Objs emptyState)[1]? = some ⟨"boom", false, "Validator error: kaboom"⟩ ∧
    (checkObjectives c5Objs emptyState)[0]? = some ⟨"ok", true, "fine"⟩ := by
  have h1 := (c5_checkObjectives c5Objs emptyState).2 1 (by simp [c5Objs])
  have h0 := (c5_checkObjectives c5Objs emptyState).2 0 (by simp [c5Objs])
  exact ⟨by simp [c5Objs], by rw [h1]; rfl, by rw [h0]; rfl⟩

/-! ## The tool-invocation extractor (`Agent.parseToolCallsFromText`)

`agent.ts` lines 354-387.  Pattern 1 finds the first
` ```json … ``` ` fence (regex ``/```json\s*([\s\S]*?)```/``), parses
its trimmed contents with `JSON.parse`, treats a bare object as a
one-element list and keeps the records with truthy `tool` and
`params`.  If that yields at least one invocation it is returned;
otherwise pattern 2 scans the whole text for inline
`{"tool": "…", "params": {…}}` occurrences. -/

/-- The opening/closing brace characters (spelled via code points). -/
def lbrace : Char := Char.ofNat 123

def rbrace : Char := Char.ofNat 125

/-- Index of the first occurrence of `pat` in `cs` (leftmost match,
as a regex engine finds it). -/
def findSub (cs pat : List Char) : Option Nat :=
  (List.range (cs.length + 1)).find? (fun i => (cs.drop i).take pat.length == pat)

/-- The capture of ``/```json\s*([\s\S]*?)```/`` on `text`: locate the
first ` ```json `, skip the greedy `\s*`, and capture lazily up to the
first following ` ``` `.  `none` when the regex does not match. -/
def matchJsonFence (text : String) : Option String :=
  let cs := text.data
  match findSub cs ("```json".data) with
  | none => none
  | some k =>
      let body := (cs.drop (k + 7)).dropWhile isWs
      match findSub body ("```".data) with
      | some m => some (String.mk (body.take m))
      | none => none

/-- Source: `accumulated.replace(/```json[\s\S]*?```/g, "")` — remove every
(non-overlapping, leftmost-first) ` ```json … ``` ` fence.  The fuel
is the input length; every removal consumes at least ten characters. -/
def stripJsonFencesAux : Nat → List Char → List Char
  | 0, cs => cs
  | fuel + 1, cs =>
      match findSub cs ("```json".data) with
      | none => cs
      | some k =>
          let rest := cs.drop (k + 7)
          match findSub rest ("```".data) with
          | none => cs
          | some m => cs.take k ++ stripJsonFencesAux fuel (rest.drop (m + 3))

def stripJsonFences (s : String) : String :=
  String.mk (stripJsonFencesAux s.data.length s.data)

/-! ### A `JSON.parse` model

A fuel-indexed recursive-descent parser for the JSON subset the agent
exchanges: `null`, booleans, integer numbers, strings (with the
standard escapes, `\uXXXX` restricted to non-surrogate code points),
arrays and objects.  Fractional/exponent numbers are outside the
modelled subset (the parser rejects them). -/

/-- Value of one hexadecimal digit. -/
def hexVal (c : Char) : Option Nat :=
  if c.isDigit then some (c.toNat - 48)
  else if 'a' ≤ c ∧ c ≤ 'f' then some (c.toNat - 87)
  else if 'A' ≤ c ∧ c ≤ 'F' then some (c.toNat - 55)
  else none

/-- Parse the body of a JSON string after the opening quote. -/
def parseJsonString : List Char → List Char → Option (String × List Char)
  | _, [] => none
  | acc, c :: r =>
      if c = '"' then some (String.mk acc.reverse, r)
      else if c = '\\' then
        match r with
        | [] => none
        | e :: r2 =>
            if e = '"' then parseJsonString ('"' :: acc) r2
            else if e = '\\' then parseJsonString ('\\' :: acc) r2
            else if e = '/' then parseJsonString ('/' :: acc) r2
            else if e = 'n' then parseJsonString ('\n' :: acc) r2
            else if e = 't' then parseJsonString ('\t' :: acc) r2
            else if e = 'r' then parseJsonString ('\r' :: acc) r2
            else if e = 'b' then parseJsonString ('\x08' :: acc) r2
            else if e = 'f' then parseJsonString ('\x0c' :: acc) r2
            else if e = 'u' then
              match r2 with
              | h1 :: h2 :: h3 :: h4 :: r3 =>
                  match hexVal h1, hexVal h2, hexVal h3, hexVal h4 with
                  | some v1, some v2, some v3, some v4 =>
                      let n := ((v1 * 16 + v2) * 16 + v3) * 16 + v4
                      if h : n < 0xd800 then
                        parseJsonString (Char.ofNatAux n (Or.inl h) :: acc) r3
                      else none
                  | _, _, _, _ => none
              | _ => none
            else none
      else parseJsonString (c :: acc) r

/-- Parse a JSON integer (the modelled number subset). -/
def parseJsonNumber (cs : List Char) : Option (Json × List Char) :=
  let negAndRest : Bool × List Char :=
    match cs with
    | '-' :: r => (true, r)
    | _ => (false, cs)
  let digits := negAndRest.2.takeWhile Char.isDigit
  let rest := negAndRest.2.dropWhile Char.isDigit
  if digits.isEmpty then none
  else
    match rest with
    | '.' :: _ => none
    | 'e' :: _ => none
    | 'E' :: _ => none
    | _ =>
        let n : Nat := digits.foldl (fun a c => a * 10 + (c.toNat - 48)) 0
        some (.num (if negAndRest.1 then -(n : Int) else (n : Int)), rest)

mutual

def parseJsonValue : Nat → List Char → Option (Json × List Char)
  | 0, _ => none
  | fuel + 1, cs =>
      match cs.dropWhile isWs with
      | [] => none
      | c :: rest =>
          if c = 'n' then
            if rest.take 3 == "ull".data then some (.null, rest.drop 3) else none
          else if c = 't' then
            if rest.take 3 == "rue".data then some (.bool true, rest.drop 3) else none
          else if c = 'f' then
            if rest.take 4 == "alse".data then some (.bool false, rest.drop 4) else none
          else if c = '"' then
            (parseJsonString [] rest).map (fun p => (.str p.1, p.2))
          else if c = '-' || c.isDigit then parseJsonNumber (c :: rest)
          else if c = '[' then
            match rest.dropWhile isWs with
            | ']' :: r2 => some (.arr [], r2)
            | r1 => parseJsonElems fuel r1 []
          else if c = lbrace then
            match rest.dropWhile isWs with
            | d :: r2 => if d = rbrace then some (.obj [], r2) else parseJsonFields fuel rest []
            | [] => none
          else none

def parseJsonElems : Nat → List Char → List Json → Option (Json × List Char)
  | 0, _, _ => none
  | fuel + 1, cs, acc =>
      match parseJsonValue fuel cs with
      | none => none
      | some (v, rest) =>
          match rest.dropWhile isWs with
          | ',' :: r2 => parseJsonElems fuel r2 (acc ++ [v])
          | ']' :: r2 => some (.arr (acc ++ [v]), r2)
          | _ => none

def parseJsonFields : Nat → List Char → List (String × Json) → Option (Json × List Char)
  | 0, _, _ => none
  | fuel + 1, cs, acc =>
      match cs.dropWhile isWs with
      | '"' :: r =>
          match parseJsonString [] r with
          | none => none
          | some (k, r2) =>
              match r2.dropWhile isWs with
              | ':' :: r3 =>
                  match parseJsonValue fuel r3 with
                  | none => none
                  | some (v, r4) =>
                      match r4.dropWhile isWs with
                      | ',' :: r5 => parseJsonFields fuel r5 (acc ++ [(k, v)])
                      | d :: r5 =>
                          if d = rbrace then some (.obj (acc ++ [(k, v)]), r5) else none
                      | [] => none
              | _ => none
      | _ => none

end

/-- Source: `JSON.parse` on the modelled subset: a single value followed only
by whitespace. -/
def jsonParse (s : String) : Option Json :=
  match parseJsonValue (s.length + 1) s.data with
  | some (v, rest) => if (rest.dropWhile isWs).isEmpty then some v else none
  | none => none

/-! ### From parsed payload to invocations -/

/-- Source: `ToolInvocation` from `src/types.ts`.  The source types `tool` as a
string, but the extractor stores whatever JSON value the record's
`tool` field held, so the model keeps the dynamic value. -/
structure ToolInvocation where
  tool : Json
  params : Json
  reasoning : Json

/-- Source: `Array.isArray(parsed) ? parsed : [parsed]` (`agent.ts` line 362). -/
def jsonRecords : Json → List Json
  | .arr xs => xs
  | v => [v]

/-- Source: `item.tool && item.params` (`agent.ts` line 364). -/
def wellFormedRecord (item : Json) : Bool :=
  truthyOpt (jsGet item "tool") && truthyOpt (jsGet item "params")

/-- The invocation pushed for a record (`agent.ts` lines 365-369);
`item.reasoning || ""` replaces a falsy or absent reasoning by `""`. -/
def mkInvFromItem (item : Json) : ToolInvocation :=
  { tool := (jsGet item "tool").getD .null
    params := (jsGet item "params").getD .null
    reasoning :=
      match jsGet item "reasoning" with
      | some r => if r.truthy then r else .str ""
      | none => .str "" }

/-- Pattern 1: the fence path of the extractor (`agent.ts` lines
358-374), up to the non-emptiness test. -/
def fenceInvocations (text : String) : List ToolInvocation :=
  match matchJsonFence text with
  | none => []
  | some inner =>
      match jsonParse (jsTrim inner) with
      | none => []
      | some parsed =>
          (jsonRecords parsed).foldl
            (fun acc item =>
              if wellFormedRecord item then acc ++ [mkInvFromItem item] else acc) []

/-- One attempted match of the inline pattern
`/\{\s*"tool"\s*:\s*"([^"]+)"\s*,\s*"params"\s*:\s*(\{[^}]*\})/` at the
head of `cs`; on success returns the tool name, the `params` source
text (braces included) and the rest of the input after the match. -/
def matchInlineAt (cs : List Char) : Option (String × String × List Char) :=
  match cs with
  | [] => none
  | c :: r =>
      if c = lbrace then
        match (r.dropWhile isWs).take 6 == "\"tool\"".data, (r.dropWhile isWs).drop 6 with
        | true, r1 =>
            match r1.dropWhile isWs with
            | ':' :: r2 =>
                match r2.dropWhile isWs with
                | '"' :: r3 =>
                    let name := r3.takeWhile (fun x => x != '"')
                    match name.isEmpty, r3.dropWhile (fun x => x != '"') with
                    | false, '"' :: r4 =>
                        match r4.dropWhile isWs with
                        | ',' :: r5 =>
                            match (r5.dropWhile isWs).take 8 == "\"params\"".data,
                                  (r5.dropWhile isWs).drop 8 with
                            | true, r6 =>
                                match r6.dropWhile isWs with
                                | ':' :: r7 =>
                                    match r7.dropWhile isWs with
                                    | b :: r8 =>
                                        if b = lbrace then
                                          let body := r8.takeWhile (fun x => x != rbrace)
                                          match r8.dropWhile (fun x => x != rbrace) with
                                          | e :: r9 =>
                                              if e = rbrace then
                                                some (String.mk name,
                                                      String.mk (lbrace :: body ++ [rbrace]), r9)
                                              else none
                                          | [] => none
                                        else none
                                    | [] => none
                                | _ => none
                            | _, _ => none
                        | _ => none
                    | _, _ => none
                | _ => none
            | _ => none
        | _, _ => none
      else none

/-- Pattern 2: the `exec` loop over the inline regex (`agent.ts` lines
377-384): leftmost, non-overlapping matches; a match whose `params`
text fails `JSON.parse` is skipped. -/
def inlineScanAux : Nat → List Char → List ToolInvocation
  | 0, _ => []
  | _, [] => []
  | fuel + 1, c :: rest =>
      match matchInlineAt (c :: rest) with
      | some (name, paramsStr, rest') =>
          (match jsonParse paramsStr with
           | some p => [{ tool := Json.str name, params := p, reasoning := Json.str "" }]
           | none => []) ++ inlineScanAux fuel rest'
      | none => inlineScanAux fuel rest

/-- Source: `Agent.parseToolCallsFromText` (`agent.ts` lines 354-387). -/
def parseToolCallsFromText (text : String) : List ToolInvocation :=
  let fenced := fenceInvocations text
  if fenced.isEmpty then inlineScanAux text.data.length text.data else fenced

/-! ### C4: the fence path returns every record, in order -/

theorem foldl_wellFormed_eq_map (items : List Json)
    (hwf : ∀ item ∈ items, wellFormedRecord item = true) :
    ∀ acc, items.foldl
        (fun acc item =>
          if wellFormedRecord item then acc ++ [mkInvFromItem item] else acc) acc
      = acc ++ items.map mkInvFromItem := by
  induction items with
  | nil => intro acc; simp
  | cons x xs ih =>
      intro acc
      have hx : wellFormedRecord x = true := hwf x (by simp)
      simp only [List.foldl_cons, hx, if_pos]
      rw [ih (fun item h => hwf item (by simp [h]))]
      simp [List.append_assoc]

/-- Claim **C4.**  For model text whose (unique, first) ` ```json ` fence
parses to a JSON payload of `N ≥ 1` records, all of shape
`{tool, params, reasoning?}` (a bare object counting as a one-element
list), the extractor returns exactly those `N` invocations in the
payload's source order. -/
theorem c4_extractor (text inner : String) (v : Json)
    (hfence : matchJsonFence text = some inner)
    (hparse : jsonParse (jsTrim inner) = some v)
    (hwf : ∀ item ∈ jsonRecords v, wellFormedRecord item = true)
    (hne : jsonRecords v ≠ []) :
    parseToolCallsFromText text = (jsonRecords v).map mkInvFromItem ∧
    (parseToolCallsFromText text).length = (jsonRecords v).length := by
  have hfenced : fenceInvocations text = (jsonRecords v).map mkInvFromItem := by
    unfold fenceInvocations
    simp only [hfence, hparse]
    simpa using foldl_wellFormed_eq_map (jsonRecords v) hwf []
  have hres : parseToolCallsFromText text = (jsonRecords v).map mkInvFromItem := by
    unfold parseToolCallsFromText
    rw [hfenced]
    have : ((jsonRecords v).map mkInvFromItem).isEmpty = false := by
      cases hrec : jsonRecords v with
      | nil => exact absurd hrec hne
      | cons a l => simp
    simp [this]
  exact ⟨hres, by rw [hres]; simp⟩

/-- Concrete model text for the C4 witness (` ``` ` spelled inside the
string literal; braces written via escapes). -/
def c4Text : String :=
  "I will run it.\n```json\n[\x7b\"tool\": \"exec\", \"params\": \x7b\"command\": \"ls\"\x7d\x7d]\n```"

def c4Inner : String := "[\x7b\"tool\": \"exec\", \"params\": \x7b\"command\": \"ls\"\x7d\x7d]\n"

def c4Payload : Json :=
  .arr [.obj [("tool", .str "exec"), ("params", .obj [("command", .str "ls")])]]

/-- Witness for C4: a one-record fenced payload extracts to exactly
that invocation. -/
theorem c4_extractor_witness :
    matchJsonFence c4Text = some c4Inner ∧
    parseToolCallsFromText c4Text
      = [{ tool := .str "exec", params := .obj [("command", .str "ls")],
           reasoning := .str "" }] := by
  have hfence : matchJsonFence c4Text = some c4Inner := by decide
  have hparse : jsonParse (jsTrim c4Inner) = some c4Payload := by rfl
  have hwf : ∀ item ∈ jsonRecords c4Payload, wellFormedRecord item = true := by
    intro item h
    simp only [c4Payload, jsonRecords, List.mem_singleton] at h
    subst h
    rfl
  have hne : jsonRecords c4Payload ≠ [] := by simp [c4Payload, jsonRecords]
  have h := (c4_extractor c4Text c4Inner c4Payload hfence hparse hwf hne).1
  exact ⟨hfence, h.trans rfl⟩

/-! ## The Agent execution loop (`Agent.executeLoop`, `agent.ts` 190-346)

The loop is driven by a per-iteration environment: the abort-signal
sample, the LLM interaction's outcome and an oracle for the executions
of registered tools.  Everything else — event emission, message and
history bookkeeping, objective checking, termination — is computed by
the model exactly as the source does.  The `elapsed` payloads
(wall-clock) are not modelled. -/

/-- A structured tool call returned by the atomic (non-streaming) LLM
path (`llmResult.toolCalls`). -/
structure ToolCall where
  name : String
  args : Json

/-- Outcome of the atomic fallback call (`this.callWithJsxAi`):
it may reject (modelled by `throws`, caught by the iteration-level
catch), resolve to nothing, or return text plus structured calls. -/
inductive AtomicOutcome where
  | throws (msg : String)
  | noResponse
  | ok (text : String) (toolCalls : List ToolCall)

/-- Outcome of the streaming attempt: either the stream completes
after the given chunks, or it throws after them (`chunks = []` means
it threw before producing anything, which triggers the atomic
fallback; with at least one chunk the error is swallowed). -/
inductive LlmOutcome where
  | streamOk (chunks : List String)
  | streamErr (chunks : List String) (atomic : AtomicOutcome)

/-- Environment of one loop iteration. -/
structure IterEnv where
  aborted : Bool
  llm : LlmOutcome
  execOutcomes : Nat → Except String ToolResult

/-- Events of `AgentEvent` (`src/types.ts`), without the wall-clock
`elapsed` payloads.  The `tool` field carries the dynamic value the
source puts there (`inv.tool`). -/
inductive AgentEvent where
  | iteration_start (iteration : Nat)
  | thinking_delta (iteration : Nat) (delta : String)
  | thinking (iteration : Nat) (message : String)
  | tool_start (iteration : Nat) (tool : Json) (params : Json)
  | tool_result (iteration : Nat) (tool : Json) (result : ToolResult)
  | objective_check (iteration : Nat) (results : List CheckResult)
  | complete (iteration : Nat)
  | error (iteration : Nat) (message : String)
  | max_iterations (iteration : Nat)
  | cancelled (iteration : Nat)

def AgentEvent.isTerminal : AgentEvent → Bool
  | .complete _ => true
  | .max_iterations _ => true
  | .cancelled _ => true
  | _ => false

def AgentEvent.isIterationStart : AgentEvent → Bool
  | .iteration_start _ => true
  | _ => false

def AgentEvent.isComplete : AgentEvent → Bool
  | .complete _ => true
  | _ => false

/-- The configured `Agent` as the loop sees it: objective list,
registered tool names (registry key order) and the iteration cap. -/
structure Agent where
  objectives : List Objective
  tools : List String
  maxIterations : Nat

/-- Source: `state.messages.push({role, content})`. -/
def pushMsg (st : AgentState) (role content : String) : AgentState :=
  { st with messages := st.messages ++ [⟨role, content⟩] }

/-- JS `Set.add` on `touchedFiles`: insertion-ordered, value equality,
adding an existing element is a no-op. -/
def setAdd (l : List Json) (x : Json) : List Json :=
  if l.any (fun y => Json.beq y x) then l else l ++ [x]

/-- Intermediate result of the LLM phase of one iteration (`agent.ts`
lines 202-243): either the iteration stops early (error event plus a
corrective message, loop continues), or it proceeds with the
accumulated text and the structured result, if the atomic path ran. -/
inductive LlmPhaseOut where
  | stop (events : List AgentEvent) (st : AgentState)
  | proceed (events : List AgentEvent) (accumulated : String)
      (llmResult : Option (String × List ToolCall)) (st : AgentState)

/-- Shared tail of the streaming path: a `thinking_delta` per chunk;
empty accumulated text (with no structured result) yields the
empty-response error and a corrective user message (`agent.ts` lines
239-243). -/
def streamFinish (i : Nat) (chunks : List String) (st : AgentState) : LlmPhaseOut :=
  let deltas := chunks.map (fun c => AgentEvent.thinking_delta i c)
  let acc := String.join chunks
  if acc = "" then
    .stop (deltas ++ [.error i "LLM returned empty response"])
      (pushMsg st "user" "Empty response. Try again.")
  else .proceed deltas acc none st

/-- The LLM phase of one iteration (`agent.ts` lines 202-243).
A stream failure after at least one chunk is swallowed (`streamed` is
already true); a failure before any chunk falls back to the atomic
call, whose rejection is caught by the iteration-level catch (error
event plus `Error in iteration …` message, then `continue`). -/
def llmPhase (env : IterEnv) (i : Nat) (st : AgentState) : LlmPhaseOut :=
  match env.llm with
  | .streamOk chunks => streamFinish i chunks st
  | .streamErr chunks atomic =>
      match chunks with
      | _ :: _ => streamFinish i chunks st
      | [] =>
          match atomic with
          | .throws msg =>
              .stop [.error i msg]
                (pushMsg st "user"
                  ("Error in iteration " ++ toString i ++ ": " ++ msg ++ ". Recover and continue."))
          | .noResponse =>
              .stop [.error i "LLM returned empty response"]
                (pushMsg st "user" "Empty response. Try again.")
          | .ok text toolCalls => .proceed [] text (some (text, toolCalls)) st

/-- Source: `Unknown tool: "…". Available: …` (`agent.ts` line 284). -/
def unknownToolMsg (tools : List String) (tool : Json) : String :=
  "Unknown tool: \"" ++ jsToString tool ++ "\". Available: " ++ String.intercalate ", " tools

/-- Source: `this.tools.get(inv.tool)`: a string-keyed `Map` lookup, so only a
string `tool` value can hit the registry. -/
def toolLookup (tools : List String) (tool : Json) : Option String :=
  match tool with
  | .str s => if tools.contains s then some s else none
  | _ => none

/-- The `toolMessages` line of a known tool (`agent.ts` lines 302-303);
an empty-string `result.error` is falsy and adds no `ERROR:` suffix. -/
def toolResultLine (tool : Json) (result : ToolResult) : String :=
  "[" ++ jsToString tool ++ "] " ++ (if result.success then "✓" else "✗") ++ "\n"
    ++ result.output
    ++ (match result.error with
        | some e => if e = "" then "" else "\nERROR: " ++ e
        | none => "")

/-- Output of the sequential tool-execution block of one iteration. -/
structure ExecOut where
  events : List AgentEvent
  lines : List String
  state : AgentState
  thrown : Option String

/-- The `for (const inv of invocations)` block (`agent.ts` lines
281-304).  Unknown tool: failure `tool_result`, a `toolMessages`
line, no state change, continue with the next invocation.  Known
tool: `tool_start`, execute (the oracle's `k`-th outcome; a rejection
propagates to the iteration-level catch, aborting the remaining
invocations), history append, `touchedFiles` update when `params.path`
is truthy, `tool_result`, a `toolMessages` line. -/
def execInvs (tools : List String) (env : IterEnv) (i : Nat) :
    List ToolInvocation → Nat → AgentState → ExecOut
  | [], _, st => ⟨[], [], st, none⟩
  | inv :: rest, k, st =>
      match toolLookup tools inv.tool with
      | none =>
          let err := unknownToolMsg tools inv.tool
          let out := execInvs tools env i rest k st
          ⟨AgentEvent.tool_result i inv.tool ⟨false, "", some err⟩ :: out.events,
           ("[" ++ jsToString inv.tool ++ "] ERROR: " ++ err) :: out.lines,
           out.state, out.thrown⟩
      | some nm =>
          match env.execOutcomes k with
          | .error msg => ⟨[AgentEvent.tool_start i inv.tool inv.params], [], st, some msg⟩
          | .ok result =>
              let st1 := { st with toolHistory := st.toolHistory ++ [⟨i, nm, inv.params, result⟩] }
              let st2 :=
                match jsGet inv.params "path" with
                | some pv =>
                    if pv.truthy then { st1 with touchedFiles := setAdd st1.touchedFiles pv }
                    else st1
                | none => st1
              let out := execInvs tools env i rest (k + 1) st2
              ⟨AgentEvent.tool_start i inv.tool inv.params
                 :: AgentEvent.tool_result i inv.tool result :: out.events,
               toolResultLine inv.tool result :: out.lines,
               out.state, out.thrown⟩

/-- Source: `${inv.tool}(${JSON.stringify(inv.params)})` (`agent.ts` line 273). -/
def invDisplay (inv : ToolInvocation) : String :=
  jsToString inv.tool ++ "(" ++ jsonStringify inv.params ++ ")"

/-- The unmet-objective feedback message (`agent.ts` lines 324-333). -/
def feedbackMsg (results : List CheckResult) : String :=
  "The following objectives are NOT met yet. Use tools to make progress:\n"
    ++ String.intercalate "\n"
        ((results.filter (fun o => !o.met)).map
          (fun o => "- \"" ++ o.name ++ "\": NOT MET — " ++ o.reason))

/-- Result of one iteration body: emitted events, next state, and
whether the loop returns (`complete`). -/
structure IterOut where
  events : List AgentEvent
  state : AgentState
  halt : Bool

/-- Steps 8-10 of an iteration (`agent.ts` lines 312-334): check every
objective, emit `objective_check`; if all met emit `complete` and
return; otherwise, when no invocation was extracted, push the
feedback message. -/
def objectivePhase (a : Agent) (i : Nat) (pre : List AgentEvent)
    (invocations : List ToolInvocation) (st : AgentState) : IterOut :=
  let results := checkObjectives a.objectives st
  if results.all (fun r => r.met) then
    ⟨pre ++ [.objective_check i results] ++ [.complete i], st, true⟩
  else
    ⟨pre ++ [.objective_check i results],
     if invocations.isEmpty then pushMsg st "user" (feedbackMsg results) else st,
     false⟩

/-- Step 5 of an iteration (`agent.ts` lines 246-257): the structured
path maps the provider's tool calls, the streaming path runs the
extractor over the accumulated text. -/
def extractedInvocations (acc : String) (llmRes : Option (String × List ToolCall)) :
    List ToolInvocation :=
  match llmRes with
  | some p => p.2.map (fun tc =>
      ({ tool := Json.str tc.name, params := tc.args,
         reasoning := Json.str "" } : ToolInvocation))
  | none => parseToolCallsFromText acc

/-- The accumulated text after stripping the extracted payload
(`agent.ts` lines 258-263; only the streaming path strips). -/
def displayAcc (acc : String) (llmRes : Option (String × List ToolCall)) : String :=
  match llmRes with
  | some _ => acc
  | none =>
      let thinkingText := jsTrim (stripJsonFences acc)
      if thinkingText ≠ "" then thinkingText else acc

/-- The `thinking` event, emitted when the narrative text is non-empty
(`agent.ts` lines 266-268). -/
def thinkEvents (i : Nat) (acc1 : String) : List AgentEvent :=
  if acc1 ≠ "" then [AgentEvent.thinking i acc1] else []

/-- The stored assistant message (`agent.ts` lines 271-275). -/
def assistantContentOf (acc1 : String) (invocations : List ToolInvocation) : String :=
  if acc1 ≠ "" then acc1
  else if invocations.isEmpty then "(empty)"
  else String.intercalate ", " (invocations.map invDisplay)

/-- Steps 7-10 of an iteration (`agent.ts` lines 277-334), after the
narrative events `pre` have been decided: run the invocations (when
any), then check objectives.  A tool-execution rejection reaches the
iteration-level catch (`error` event plus corrective user message,
loop continues). -/
def execBranch (a : Agent) (env : IterEnv) (i : Nat) (pre : List AgentEvent)
    (invocations : List ToolInvocation) (st2 : AgentState) : IterOut :=
  if invocations.isEmpty then
    objectivePhase a i pre invocations st2
  else
    let ex := execInvs a.tools env i invocations 0 st2
    match ex.thrown with
    | some msg =>
        ⟨pre ++ ex.events ++ [.error i msg],
         pushMsg ex.state "user"
           ("Error in iteration " ++ toString i ++ ": " ++ msg ++ ". Recover and continue."),
         false⟩
    | none =>
        objectivePhase a i (pre ++ ex.events) invocations
          (pushMsg ex.state "tool"
            ("Tool results:\n\n" ++ String.intercalate "\n\n" ex.lines))

/-- The `try` body of one iteration (`agent.ts` lines 201-342). -/
def iterBody (a : Agent) (env : IterEnv) (i : Nat) (st : AgentState) : IterOut :=
  match llmPhase env i st with
  | .stop evs st1 => ⟨evs, st1, false⟩
  | .proceed evs acc llmRes st1 =>
      let invocations := extractedInvocations acc llmRes
      let acc1 := displayAcc acc llmRes
      execBranch a env i (evs ++ thinkEvents i acc1) invocations
        (pushMsg st1 "assistant" (assistantContentOf acc1 invocations))

/-- The `for (let i = 0; i < maxIterations; i++)` loop (`agent.ts`
lines 191-346), structured over the remaining iteration budget `n`
with `i` the current index: abort sample (`cancelled`, return),
`iteration_start`, iteration body, `complete` return, and
`max_iterations` after exhaustion. -/
def loopAux (a : Agent) (env : Nat → IterEnv) : Nat → Nat → AgentState → List AgentEvent
  | 0, _, _ => [.max_iterations a.maxIterations]
  | n + 1, i, st =>
      if (env i).aborted then [.cancelled i]
      else
        let out := iterBody a (env i) i { st with iteration := i }
        .iteration_start i :: (out.events ++ if out.halt then [] else loopAux a env n (i + 1) out.state)

/-- Source: `Agent.executeLoop`: run from iteration 0 with the full budget. -/
def executeLoop (a : Agent) (env : Nat → IterEnv) (st0 : AgentState) : List AgentEvent :=
  loopAux a env a.maxIterations 0 st0

/-! ### Event-shape lemmas for the loop -/

/-- Source: `okEvent e`: `e` is neither terminal nor an `iteration_start` —
the events an iteration body may freely emit. -/
def okEvent : AgentEvent → Bool
  | .iteration_start _ => false
  | .complete _ => false
  | .max_iterations _ => false
  | .cancelled _ => false
  | _ => true

theorem okEvent_not_terminal {e : AgentEvent} (h : okEvent e = true) :
    e.isTerminal = false := by
  cases e <;> first | rfl | exact absurd h (by simp [okEvent])

theorem okEvent_not_iterStart {e : AgentEvent} (h : okEvent e = true) :
    e.isIterationStart = false := by
  cases e <;> first | rfl | exact absurd h (by simp [okEvent])

theorem okEvent_not_complete {e : AgentEvent} (h : okEvent e = true) :
    e.isComplete = false := by
  cases e <;> first | rfl | exact absurd h (by simp [okEvent])

/-- The events of either `LlmPhaseOut` constructor. -/
def LlmPhaseOut.evts : LlmPhaseOut → List AgentEvent
  | .stop evs _ => evs
  | .proceed evs _ _ _ => evs

theorem streamFinish_evts_ok (i : Nat) (chunks : List String) (st : AgentState) :
    ∀ e ∈ (streamFinish i chunks st).evts, okEvent e = true := by
  intro e he
  unfold streamFinish at he
  by_cases h : String.join chunks = ""
  · simp only [h, if_pos, LlmPhaseOut.evts] at he
    rcases List.mem_append.1 he with hm | hm
    · rcases List.mem_map.1 hm with ⟨c, _, rfl⟩; rfl
    · simp at hm; subst hm; rfl
  · simp only [h, if_neg, LlmPhaseOut.evts] at he
    rcases List.mem_map.1 he with ⟨c, _, rfl⟩; rfl

theorem llmPhase_evts_ok (env : IterEnv) (i : Nat) (st : AgentState) :
    ∀ e ∈ (llmPhase env i st).evts, okEvent e = true := by
  intro e he
  unfold llmPhase at he
  cases hllm : env.llm with
  | streamOk chunks =>
      rw [hllm] at he; exact streamFinish_evts_ok i chunks st e he
  | streamErr chunks atomic =>
      rw [hllm] at he
      cases chunks with
      | cons c cs => exact streamFinish_evts_ok i (c :: cs) st e he
      | nil =>
          cases atomic with
          | throws msg => simp [LlmPhaseOut.evts] at he; subst he; rfl
          | noResponse => simp [LlmPhaseOut.evts] at he; subst he; rfl
          | ok text toolCalls => simp [LlmPhaseOut.evts] at he

theorem execInvs_events_ok (tools : List String) (env : IterEnv) (i : Nat) :
    ∀ (invs : List ToolInvocation) (k : Nat) (st : AgentState),
      ∀ e ∈ (execInvs tools env i invs k st).events, okEvent e = true := by
  intro invs
  induction invs with
  | nil => intro k st e he; simp [execInvs] at he
  | cons inv rest ih =>
      intro k st e he
      unfold execInvs at he
      cases hl : toolLookup tools inv.tool with
      | none =>
          rw [hl] at he
          simp only at he
          rcases List.mem_cons.1 he with rfl | hm
          · rfl
          · exact ih k st e hm
      | some nm =>
          rw [hl] at he
          cases ho : env.execOutcomes k with
          | error msg =>
              rw [ho] at he
              simp only [List.mem_singleton] at he; subst he; rfl
          | ok result =>
              rw [ho] at he
              simp only at he
              rcases List.mem_cons.1 he with rfl | hm
              · rfl
              · rcases List.mem_cons.1 hm with rfl | hm2
                · rfl
                · exact ih (k + 1) _ e hm2

theorem thinkEvents_ok (i : Nat) (s : String) :
    ∀ e ∈ thinkEvents i s, okEvent e = true := by
  intro e he
  unfold thinkEvents at he
  split at he
  · simp at he; subst he; rfl
  · simp at he

/-- Case analysis of `objectivePhase`: either every objective is met,
the body halts and its events end in `complete i` after harmless
events; or it does not halt and emits only harmless events. -/
theorem objectivePhase_cases (a : Agent) (i : Nat) (pre : List AgentEvent)
    (invs : List ToolInvocation) (st : AgentState)
    (hpre : ∀ e ∈ pre, okEvent e = true) :
    (∃ pre', (objectivePhase a i pre invs st).events = pre' ++ [AgentEvent.complete i] ∧
       (∀ e ∈ pre', okEvent e = true) ∧ (objectivePhase a i pre invs st).halt = true ∧
       ∃ st', (checkObjectives a.objectives st').all (fun r => r.met) = true) ∨
    ((∀ e ∈ (objectivePhase a i pre invs st).events, okEvent e = true) ∧
       (objectivePhase a i pre invs st).halt = false) := by
  cases hall : (checkObjectives a.objectives st).all (fun r => r.met) with
  | true =>
      left
      refine ⟨pre ++ [AgentEvent.objective_check i (checkObjectives a.objectives st)],
        ?_, ?_, ?_, ⟨st, hall⟩⟩
      · simp [objectivePhase, hall]
      · intro e he
        rcases List.mem_append.1 he with hm | hm
        · exact hpre e hm
        · simp at hm; subst hm; rfl
      · simp [objectivePhase, hall]
  | false =>
      right
      constructor
      · intro e he
        simp only [objectivePhase, hall, Bool.false_eq_true, if_neg, not_false_iff] at he
        rcases List.mem_append.1 he with hm | hm
        · exact hpre e hm
        · simp at hm; subst hm; rfl
      · simp [objectivePhase, hall]

/-- Case analysis of `execBranch` under harmless narrative events. -/
theorem execBranch_cases (a : Agent) (env : IterEnv) (i : Nat) (pre : List AgentEvent)
    (invs : List ToolInvocation) (st2 : AgentState)
    (hpre : ∀ e ∈ pre, okEvent e = true) :
    (∃ pre', (execBranch a env i pre invs st2).events = pre' ++ [AgentEvent.complete i] ∧
       (∀ e ∈ pre', okEvent e = true) ∧ (execBranch a env i pre invs st2).halt = true ∧
       ∃ st', (checkObjectives a.objectives st').all (fun r => r.met) = true) ∨
    ((∀ e ∈ (execBranch a env i pre invs st2).events, okEvent e = true) ∧
       (execBranch a env i pre invs st2).halt = false) := by
  unfold execBranch
  by_cases hinv : invs.isEmpty
  · simp only [hinv, if_pos]
    exact objectivePhase_cases a i pre invs st2 hpre
  · simp only [hinv, if_neg, Bool.not_eq_true]
    cases hth : (execInvs a.tools env i invs 0 st2).thrown with
    | some msg =>
        right
        constructor
        · intro e he
          simp only at he
          rcases List.mem_append.1 he with hm | hm
          · rcases List.mem_append.1 hm with hm2 | hm2
            · exact hpre e hm2
            · exact execInvs_events_ok a.tools env i invs 0 st2 e hm2
          · simp at hm; subst hm; rfl
        · rfl
    | none =>
        refine objectivePhase_cases a i (pre ++ (execInvs a.tools env i invs 0 st2).events)
          invs _ ?_
        intro e he
        rcases List.mem_append.1 he with hm | hm
        · exact hpre e hm
        · exact execInvs_events_ok a.tools env i invs 0 st2 e hm

/-- Case analysis of a whole iteration body. -/
theorem iterBody_cases (a : Agent) (env : IterEnv) (i : Nat) (st : AgentState) :
    (∃ pre, (iterBody a env i st).events = pre ++ [AgentEvent.complete i] ∧
       (∀ e ∈ pre, okEvent e = true) ∧ (iterBody a env i st).halt = true ∧
       ∃ st', (checkObjectives a.objectives st').all (fun r => r.met) = true) ∨
    ((∀ e ∈ (iterBody a env i st).events, okEvent e = true) ∧
       (iterBody a env i st).halt = false) := by
  unfold iterBody
  cases h : llmPhase env i st with
  | stop evs st1 =>
      right
      refine ⟨?_, rfl⟩
      intro e he
      have := llmPhase_evts_ok env i st e (by rw [h]; exact he)
      exact this
  | proceed evs acc llmRes st1 =>
      refine execBranch_cases a env i (evs ++ thinkEvents i (displayAcc acc llmRes))
        (extractedInvocations acc llmRes) _ ?_
      intro e he
      rcases List.mem_append.1 he with hm | hm
      · exact llmPhase_evts_ok env i st e (by rw [h]; exact hm)
      · exact thinkEvents_ok i _ e hm

/-- Every trace of the loop splits as harmless-prefix ++ one terminal
event. -/
theorem loopAux_terminal (a : Agent) (env : Nat → IterEnv) :
    ∀ (n i : Nat) (st : AgentState),
      ∃ pre t, loopAux a env n i st = pre ++ [t] ∧ t.isTerminal = true ∧
        ∀ e ∈ pre, e.isTerminal = false := by
  intro n
  induction n with
  | zero =>
      intro i st
      exact ⟨[], .max_iterations a.maxIterations, rfl, rfl, by simp⟩
  | succ n ih =>
      intro i st
      unfold loopAux
      by_cases hab : (env i).aborted
      · simp only [hab, if_pos]
        exact ⟨[], .cancelled i, rfl, rfl, by simp⟩
      · simp only [hab, if_neg, Bool.not_eq_true]
        rcases iterBody_cases a (env i) i { st with iteration := i } with
          ⟨pre, hev, hok, hhalt, _⟩ | ⟨hok, hhalt⟩
        · refine ⟨.iteration_start i :: pre, .complete i, ?_, rfl, ?_⟩
          · rw [hhalt]; simp [hev]
          · intro e he
            rcases List.mem_cons.1 he with rfl | hm
            · rfl
            · exact okEvent_not_terminal (hok e hm)
        · rcases ih (i + 1) (iterBody a (env i) i { st with iteration := i }).state with
            ⟨pre', t, hrec, hterm, hpre'⟩
          refine ⟨.iteration_start i :: ((iterBody a (env i) i { st with iteration := i }).events
            ++ pre'), t, ?_, hterm, ?_⟩
          · rw [hhalt]; simp [hrec]
          · intro e he
            rcases List.mem_cons.1 he with rfl | hm
            · rfl
            · rcases List.mem_append.1 hm with hm2 | hm2
              · exact okEvent_not_terminal (hok e hm2)
              · exact hpre' e hm2

/-- The loop emits at most `n` `iteration_start` events in `n`
remaining iterations. -/
theorem loopAux_iterCount (a : Agent) (env : Nat → IterEnv) :
    ∀ (n i : Nat) (st : AgentState),
      (loopAux a env n i st).countP (fun e => e.isIterationStart) ≤ n := by
  intro n
  induction n with
  | zero => intro i st; simp [loopAux, List.countP_cons, AgentEvent.isIterationStart]
  | succ n ih =>
      intro i st
      unfold loopAux
      by_cases hab : (env i).aborted
      · simp [hab, List.countP_cons, AgentEvent.isIterationStart]
      · simp only [hab, if_neg, Bool.not_eq_true]
        have hbody : ∀ e ∈ (iterBody a (env i) i { st with iteration := i }).events,
            e.isIterationStart = false := by
          rcases iterBody_cases a (env i) i { st with iteration := i } with
            ⟨pre, hev, hok, _, _⟩ | ⟨hok, _⟩
          · intro e he
            rw [hev] at he
            rcases List.mem_append.1 he with hm | hm
            · exact okEvent_not_iterStart (hok e hm)
            · simp at hm; subst hm; rfl
          · intro e he; exact okEvent_not_iterStart (hok e he)
        have hzero : (iterBody a (env i) i { st with iteration := i }).events.countP
            (fun e => e.isIterationStart) = 0 :=
          List.countP_eq_zero.2 (by intro e he; simp [hbody e he])
        cases hhalt : (iterBody a (env i) i { st with iteration := i }).halt with
        | true =>
            simp only [hhalt, if_pos, List.append_nil, List.countP_cons,
              List.countP_append, hzero]
            simp [AgentEvent.isIterationStart]
        | false =>
            simp only [hhalt, Bool.false_eq_true, if_neg, not_false_iff,
              List.countP_cons, List.countP_append, hzero]
            have hih := ih (i + 1) (iterBody a (env i) i { st with iteration := i }).state
            have hone : (AgentEvent.iteration_start i).isIterationStart = true := rfl
            simp only [hone, if_true]
            omega

/-- Claim **C2.**  A run of the execution loop started with a non-empty
objective set emits at most `maxIterations` `iteration_start` events,
and its trace is a terminal-free prefix followed by exactly one
terminal event (`complete`, `max_iterations` or `cancelled`) which
ends the run. -/
theorem c2_executeLoop (a : Agent) (env : Nat → IterEnv) (st0 : AgentState)
    (hobj : a.objectives ≠ []) :
    (executeLoop a env st0).countP (fun e => e.isIterationStart) ≤ a.maxIterations ∧
    ∃ pre t, executeLoop a env st0 = pre ++ [t] ∧ t.isTerminal = true ∧
      ∀ e ∈ pre, e.isTerminal = false := by
  exact ⟨loopAux_iterCount a env a.maxIterations 0 st0,
         loopAux_terminal a env a.maxIterations 0 st0⟩

/-- Agent, environment and initial state used to witness C2. -/
def c2Agent : Agent :=
  { objectives := [{ name := "done", description := "d",
                     validate := fun _ => .ok ⟨true, "ok"⟩ }]
    tools := ["exec"]
    maxIterations := 1 }

def c2Env : Nat → IterEnv :=
  fun _ => { aborted := false, llm := .streamOk ["hi"], execOutcomes := fun _ => .ok ⟨true, "", none⟩ }

/-- Witness for C2 at a concrete one-iteration run that completes. -/
theorem c2_executeLoop_witness :
    c2Agent.objectives ≠ [] ∧
    ((executeLoop c2Agent c2Env emptyState).countP (fun e => e.isIterationStart)
        ≤ c2Agent.maxIterations ∧
      ∃ pre t, executeLoop c2Agent c2Env emptyState = pre ++ [t] ∧ t.isTerminal = true ∧
        ∀ e ∈ pre, e.isTerminal = false) :=
  ⟨by simp [c2Agent], c2_executeLoop c2Agent c2Env emptyState (by simp [c2Agent])⟩

/-! ### C9: single-character-token commands can never be met -/

theorem keywordsOf_nil_of_short (cmd : String)
    (h : ∀ w ∈ jsSplitWs cmd, w.length ≤ 1) : keywordsOf cmd = [] := by
  unfold keywordsOf
  apply List.filter_eq_nil.2
  intro w hw
  have := h w hw
  simp only [decide_eq_true_eq]
  omega

theorem entryMatches_nil (t : ToolHistoryEntry) : entryMatches [] t = false := by
  simp [entryMatches]

theorem commandValidators_never_met (cmd : String) (hkw : keywordsOf cmd = [])
    (state : AgentState) :
    commandSucceedsValidate cmd state
      = ⟨false, "Command \"" ++ cmd ++ "\" not executed yet"⟩ ∧
    ∀ text, commandOutputContainsValidate cmd text state
      = ⟨false, "Command \"" ++ cmd ++ "\" not executed yet"⟩ := by
  have hfind : jsFindLast (entryMatches (keywordsOf cmd)) state.toolHistory = none := by
    unfold jsFindLast
    apply List.find?_eq_none.2
    intro t _
    rw [hkw, entryMatches_nil]
    simp
  constructor
  · simp only [commandSucceedsValidate, hfind]
  · intro text
    simp only [commandOutputContainsValidate, hfind]

/-- If no state can satisfy all objectives, no iteration body halts. -/
theorem iterBody_no_halt (a : Agent) (env : IterEnv) (i : Nat) (st : AgentState)
    (h : ∀ st', (checkObjectives a.objectives st').all (fun r => r.met) = false) :
    (iterBody a env i st).halt = false := by
  rcases iterBody_cases a env i st with ⟨_, _, _, _, st', hall⟩ | ⟨_, hhalt⟩
  · rw [h st'] at hall; exact absurd hall (by simp)
  · exact hhalt

/-- If no state can satisfy all objectives, the loop never emits
`complete`. -/
theorem loopAux_complete_free (a : Agent) (env : Nat → IterEnv)
    (h : ∀ st', (checkObjectives a.objectives st').all (fun r => r.met) = false) :
    ∀ (n i : Nat) (st : AgentState),
      ∀ e ∈ loopAux a env n i st, e.isComplete = false := by
  intro n
  induction n with
  | zero => intro i st e he; simp [loopAux] at he; subst he; rfl
  | succ n ih =>
      intro i st e he
      unfold loopAux at he
      by_cases hab : (env i).aborted
      · simp only [hab, if_pos, List.mem_singleton] at he; subst he; rfl
      · simp only [hab, if_neg, Bool.not_eq_true] at he
        rcases List.mem_cons.1 he with rfl | hm
        · rfl
        · rw [iterBody_no_halt a (env i) i _ h] at hm
          simp only [Bool.false_eq_true, if_neg, not_false_iff] at hm
          rcases List.mem_append.1 hm with hm2 | hm2
          · rcases iterBody_cases a (env i) i { st with iteration := i } with
              ⟨_, _, _, hhalt, _⟩ | ⟨hok, _⟩
            · rw [iterBody_no_halt a (env i) i _ h] at hhalt; exact absurd hhalt (by simp)
            · exact okEvent_not_complete (hok e hm2)
          · exact ih (i + 1) _ e hm2

/-- Claim **C9.**  A `command_succeeds` or `command_output_contains`
objective whose target command has only whitespace-delimited tokens of
length ≤ 1 yields an empty keyword list, so for every run state the
hydrated validator answers `met:false` with the not-executed reason,
and a loop gated on such an objective alone never emits `complete`. -/
theorem c9_short_tokens (cmd : String)
    (h : ∀ w ∈ jsSplitWs cmd, w.length ≤ 1) :
    (∀ state : AgentState,
      commandSucceedsValidate cmd state
        = ⟨false, "Command \"" ++ cmd ++ "\" not executed yet"⟩ ∧
      ∀ text, commandOutputContainsValidate cmd text state
        = ⟨false, "Command \"" ++ cmd ++ "\" not executed yet"⟩) ∧
    ∀ (nm desc : String) (tools : List String) (maxIter : Nat)
      (env : Nat → IterEnv) (st0 : AgentState),
      ∀ e ∈ executeLoop
          { objectives := [{ name := nm, description := desc,
                             validate := fun st => .ok (commandSucceedsValidate cmd st) }]
            tools := tools, maxIterations := maxIter } env st0,
        e.isComplete = false := by
  have hkw := keywordsOf_nil_of_short cmd h
  constructor
  · intro state; exact commandValidators_never_met cmd hkw state
  · intro nm desc tools maxIter env st0
    apply loopAux_complete_free
    intro st'
    have hval := (commandValidators_never_met cmd hkw st').1
    simp [checkObjectives, mkCheckResult, hval]

/-- Witness for C9: the command `"a b c"` (all tokens single
characters) against a state whose history holds a successful matching
`exec` entry, and a one-iteration loop gated on it. -/
theorem c9_short_tokens_witness :
    (∀ w ∈ jsSplitWs "a b c", w.length ≤ 1) ∧
    commandSucceedsValidate "a b c"
        { messages := [], iteration := 0,
          toolHistory := [
            { iteration := 0, tool := "exec",
              params := .obj [("command", .str "a b c")],
              result := { success := true, output := "done", error := none } }],
          touchedFiles := [] }
      = ⟨false, "Command \"a b c\" not executed yet"⟩ ∧
    ∀ e ∈ executeLoop
        { objectives := [{ name := "cmd", description := "d",
                           validate := fun st => .ok (commandSucceedsValidate "a b c" st) }]
          tools := ["exec"], maxIterations := 1 } c2Env emptyState,
      e.isComplete = false := by
  have h : ∀ w ∈ jsSplitWs "a b c", w.length ≤ 1 := by decide
  refine ⟨h, ((c9_short_tokens "a b c" h).1 _).1, ?_⟩
  exact (c9_short_tokens "a b c" h).2 "cmd" "d" ["exec"] 1 c2Env emptyState

/-! ### C10: unknown-tool invocations are pure failures -/

/-- Claim **C10.**  When an extracted invocation names a tool absent from
the registry, the tool-execution block emits exactly one failed
`tool_result` event carrying the `Unknown tool` error and contributes
one line to the iteration's aggregated tool-role message — no
`tool_start`, no `toolHistory` append, no `touchedFiles` change — and
execution continues with the remaining invocations of the same
iteration from the **unchanged** state (same oracle index). -/
theorem c10_unknown_tool (tools : List String) (env : IterEnv) (i : Nat)
    (inv : ToolInvocation) (rest : List ToolInvocation) (k : Nat) (st : AgentState)
    (h : toolLookup tools inv.tool = none) :
    execInvs tools env i (inv :: rest) k st =
      { events := AgentEvent.tool_result i inv.tool
            ⟨false, "", some (unknownToolMsg tools inv.tool)⟩
          :: (execInvs tools env i rest k st).events
        lines := ("[" ++ jsToString inv.tool ++ "] ERROR: " ++ unknownToolMsg tools inv.tool)
          :: (execInvs tools env i rest k st).lines
        state := (execInvs tools env i rest k st).state
        thrown := (execInvs tools env i rest k st).thrown } := by
  simp only [execInvs, h]

/-- Witness for C10: an invocation of the unregistered tool `"nope"`
followed by a registered `"exec"` invocation; the unknown invocation
adds one failed `tool_result`, touches no state, and the `exec`
invocation still runs (from oracle index 0). -/
theorem c10_unknown_tool_witness :
    toolLookup ["exec"] (Json.str "nope") = none ∧
    execInvs ["exec"] (c2Env 0) 3
        [ { tool := .str "nope", params := .obj [], reasoning := .str "" },
          { tool := .str "exec", params := .obj [("command", .str "ls")],
            reasoning := .str "" } ] 0 emptyState =
      { events := [
          AgentEvent.tool_result 3 (.str "nope")
            ⟨false, "", some (unknownToolMsg ["exec"] (.str "nope"))⟩,
          AgentEvent.tool_start 3 (.str "exec") (.obj [("command", .str "ls")]),
          AgentEvent.tool_result 3 (.str "exec") ⟨true, "", none⟩]
        lines := ["[nope] ERROR: " ++ unknownToolMsg ["exec"] (.str "nope"),
                  toolResultLine (.str "exec") ⟨true, "", none⟩]
        state := { emptyState with toolHistory := [
          { iteration := 3, tool := "exec",
            params := .obj [("command", .str "ls")],
            result := ⟨true, "", none⟩ }] }
        thrown := none } := by
  constructor
  · rfl
  · rw [c10_unknown_tool ["exec"] (c2Env 0) 3
      { tool := .str "nope", params := .obj [], reasoning := .str "" }
      [{ tool := .str "exec", params := .obj [("command", .str "ls")],
         reasoning := .str "" }] 0 emptyState rfl]
    rfl

/-! ## Agent construction and the `run()` guard (`agent.ts` 32-90)

The constructor (`agent.ts` lines 32-54) performs no validation: it
defaults the numeric options, seeds the registry with the built-in
tools and lets caller tools shadow same-named built-ins.  The empty
objective check happens at the top of `run()` (`agent.ts` lines 85-88)
and is a thrown error, not an event.  The repository's own test suite
pins this down ("constructor allows empty objectives for plan()",
"run() throws without objectives"). -/

/-- The slice of `AgentConfig` the constructor's control flow reads.
Generation parameters (`temperature`, `maxTokens`), `cwd`,
`toolTimeoutMs`, `skills` and `systemPrompt` only flow into prompts or
tool bodies, which the modelled claims never inspect; custom tools are
modelled by their registry names. -/
structure AgentConfig where
  model : String
  objectives : Option (List Objective)
  tools : Option (List String)
  maxIterations : Option Nat

/-- The built-in tool registry's key order (`createBuiltinTools`,
`src/tools.ts`). -/
def builtinToolNames : List String :=
  ["read_file", "write_file", "edit_file", "exec", "list_dir", "search"]

/-- Source: `Map.set` key order: re-setting an existing key keeps its position,
a new key is appended. -/
def registryKeys (builtins customs : List String) : List String :=
  customs.foldl (fun acc n => if acc.contains n then acc else acc ++ [n]) builtins

/-- The `Agent` constructor (`agent.ts` lines 32-54): a total
function — no configuration is rejected here.  `config.objectives || []`
defaults an absent objective list to the empty list. -/
def Agent.new (config : AgentConfig) : Agent :=
  { objectives := config.objectives.getD []
    tools := registryKeys builtinToolNames (config.tools.getD [])
    maxIterations := config.maxIterations.getD 20 }

/-- Source: `Agent.run` (`agent.ts` lines 85-117): the guard at the top throws
on an empty objective set (modelled by `.error`; the thrown message is
the source's); otherwise the run produces the loop's event stream from
the seeded state. -/
def Agent.run (a : Agent) (env : Nat → IterEnv) (st0 : AgentState) :
    Except String (List AgentEvent) :=
  if a.objectives.length = 0 then
    .error "No objectives defined. Use Agent.plan() for dynamic objective generation, or pass objectives in the constructor."
  else .ok (executeLoop a env st0)

/-- A configuration with no objectives, as in the repository's test
`new Agent({ model: "test" })`. -/
def c3Config : AgentConfig :=
  { model := "test", objectives := none, tools := none, maxIterations := none }

/-- Claim **C3, counterexample.**  Constructing an `Agent` from a
configuration with an absent objective set does **not** raise an
error: the constructor is total and yields a normal agent (with the
built-in registry and default cap), exactly as the repository's test
"constructor allows empty objectives for plan()" asserts.  The fatal
error is raised by `run()` instead. -/
theorem c3_counterexample :
    Agent.new c3Config
      = { objectives := [], tools := builtinToolNames, maxIterations := 20 } ∧
    Agent.run (Agent.new c3Config) c2Env emptyState
      = .error "No objectives defined. Use Agent.plan() for dynamic objective generation, or pass objectives in the constructor." := by
  exact ⟨rfl, rfl⟩

/-- Claim **C3, amended.**  Construction with an empty or absent objective
set succeeds (the constructor is total and validates nothing); the
fatal configuration error is raised when `run()` is invoked, before
any event is produced — it is thrown (an `.error`, never an event
stream), and nothing retries it. -/
theorem c3_amended (config : AgentConfig) (h : config.objectives.getD [] = []) :
    (Agent.new config).objectives = [] ∧
    ∀ (env : Nat → IterEnv) (st0 : AgentState),
      Agent.run (Agent.new config) env st0
        = .error "No objectives defined. Use Agent.plan() for dynamic objective generation, or pass objectives in the constructor." := by
  constructor
  · simp [Agent.new, h]
  · intro env st0
    unfold Agent.run
    simp [Agent.new, h]

/-- Witness for the amended C3 at the concrete no-objective config. -/
theorem c3_amended_witness :
    c3Config.objectives.getD [] = [] ∧
    Agent.run (Agent.new c3Config) c2Env emptyState
      = .error "No objectives defined. Use Agent.plan() for dynamic objective generation, or pass objectives in the constructor." :=
  ⟨rfl, (c3_amended c3Config rfl).2 c2Env emptyState⟩

/-! ## The Session message classifier (`classifyMessage`, `src/session.ts`)

A pure function of the lower-cased, trimmed message text plus a
history flag, checked in priority order: ARC patterns, task patterns,
conversational patterns, the short-follow-up rule, default task.  The
JavaScript regexes are modelled with explicit word-boundary (`\b`,
over `[A-Za-z0-9_]`) and dot (`.
` excludes line terminators) semantics. -/

/-- JS `\w`. -/
def isWordChar (c : Char) : Bool := c.isAlphanum || c = '_'

def wordCharAt (cs : List Char) (i : Nat) : Bool :=
  match cs[i]? with
  | some c => isWordChar c
  | none => false

/-- Source: `\b` holds between positions `i-1` and `i`. -/
def boundaryAt (cs : List Char) (i : Nat) : Bool :=
  if i = 0 then wordCharAt cs 0 else wordCharAt cs (i - 1) != wordCharAt cs i

def matchesAt (cs : List Char) (i : Nat) (w : List Char) : Bool :=
  (cs.drop i).take w.length == w

/-- Source: `\bw\b` matches at position `i`. -/
def wordAt (cs : List Char) (i : Nat) (w : List Char) : Bool :=
  matchesAt cs i w && boundaryAt cs i && boundaryAt cs (i + w.length)

/-- Source: `/\b(alt1|alt2|…)\b/.test(s)`. -/
def wordTest (s : String) (alts : List String) : Bool :=
  (List.range (s.data.length + 1)).any fun i => alts.any fun a => wordAt s.data i a.data

def isHexDigit (c : Char) : Bool :=
  c.isDigit || ('a' ≤ c && c ≤ 'f') || ('A' ≤ c && c ≤ 'F')

/-- Source: `/\b[0-9a-f]{8}\b/i.test(s)`. -/
def hexWordTest (s : String) : Bool :=
  (List.range (s.data.length + 1)).any fun i =>
    boundaryAt s.data i && boundaryAt s.data (i + 8) &&
      ((s.data.drop i).take 8).length == 8 && ((s.data.drop i).take 8).all isHexDigit

/-- The span matched by `.*` (no line terminators). -/
def dotSpan (cs : List Char) (a b : Nat) : Bool :=
  ((cs.drop a).take (b - a)).all (fun c => c != '\n' && c != '\r')

/-- Source: `/\b(f…)\b.*\b(s…)\b/.test(s)`. -/
def seqWordTest (s : String) (firsts seconds : List String) : Bool :=
  let cs := s.data
  (List.range (cs.length + 1)).any fun i =>
    firsts.any fun a =>
      wordAt cs i a.data &&
        ((List.range (cs.length + 1)).any fun j =>
          decide (i + a.data.length ≤ j) && (seconds.any fun b => wordAt cs j b.data) &&
            dotSpan cs (i + a.data.length) j)

/-- Source: `/\bcreate\b.*\.(txt|ts|js|json|md|yaml|yml|html|css)/i.test(s)`
(note: no trailing `\b` after the extension). -/
def createExtTest (s : String) : Bool :=
  let cs := s.data
  (List.range (cs.length + 1)).any fun i =>
    wordAt cs i ("create".data) &&
      ((List.range (cs.length + 1)).any fun j =>
        decide (i + 6 ≤ j) && dotSpan cs (i + 6) j &&
          (["txt", "ts", "js", "json", "md", "yaml", "yml", "html", "css"].any fun ext =>
            matchesAt cs j ("." ++ ext).data))

/-- Source: `/^(alt1|…)\b/.test(s)`. -/
def startsWordTest (s : String) (alts : List String) : Bool :=
  alts.any fun a => matchesAt s.data 0 a.data && boundaryAt s.data a.data.length

/-- Source: `/\?$/.test(s)`. -/
def endsWithQm (s : String) : Bool :=
  match s.data.getLast? with
  | some c => c = '?'
  | none => false

def asciiLowerStr (s : String) : String := String.mk (s.data.map Char.toLower)

/-- Source: `classifyMessage` (`src/session.ts`): routing for a user message. -/
def classifyMessage (message : String) (hasHistory : Bool) : String :=
  let lower := jsTrim (asciiLowerStr message)
  if wordTest lower ["arc", "arc-agi", "abstract reasoning"] &&
      wordTest lower ["solve", "try", "attempt", "run", "challenge", "puzzle"] then "arc"
  else if hexWordTest lower && wordTest lower ["solve", "puzzle", "arc"] then "arc"
  else if
      seqWordTest lower
        ["create", "make", "write", "build", "generate", "add", "delete", "remove",
         "install", "update", "modify", "edit", "fix", "deploy", "setup", "configure"]
        ["file", "folder", "directory", "script", "code", "project", "app", "server",
         "database", "component", "function", "test", "page"]
      || seqWordTest lower ["run", "execute", "start", "stop", "restart", "kill"]
          ["command", "script", "server", "process", "test"]
      || wordTest lower ["save", "store", "persist", "schedule", "send"]
      || createExtTest lower then "task"
  else if
      startsWordTest lower
        ["what", "who", "why", "how", "when", "where", "which", "is", "are", "was",
         "were", "do", "does", "did", "can", "could", "would", "should", "shall"]
      || startsWordTest lower
          ["tell", "explain", "describe", "summarize", "compare", "define", "clarify",
           "elaborate"]
      || startsWordTest lower
          ["hey", "hi", "hello", "thanks", "thank", "ok", "okay", "sure", "yes", "no",
           "yeah", "nah", "cool", "nice", "great", "awesome", "lol", "haha", "wow",
           "interesting"]
      || endsWithQm lower then "conversational"
  else if hasHistory && decide ((jsSplitWs lower).length ≤ 8) then "conversational"
  else "task"

/-- Claim **C8.**  The classifier routes "What did you just create?" (with
history) to the conversational path and "Create a file called
report.md with notes" (no history) to the task path. -/
theorem c8_classifyMessage :
    classifyMessage "What did you just create?" true = "conversational" ∧
    classifyMessage "Create a file called report.md with notes" false = "task" := by
  constructor <;> decide

/-! ## The Session orchestrator's state (`src/session.ts`)

The mutable fields of `Session` (`session.ts`, `Session` class):
`history`, `plannerHistory`, `completedObjectives`, `pendingObjectives`,
`turnCount`, the confirmation gate (`confirmationResolve`, modelled by
whether a resolver is stored) and the abort controller (modelled by
whether one is live). -/

/-- Source: `PlannedObjective` from `src/types.ts`. -/
structure PlannedObjective where
  name : String
  description : String
  type : String
  params : Json

structure SessionState where
  history : List Message
  plannerHistory : List Message
  completedObjectives : List PlannedObjective
  pendingObjectives : List PlannedObjective
  turnCount : Nat
  confirmationPending : Bool
  abortActive : Bool

/-- Source: `Session.confirmObjectives` (`session.ts`): when a resolver is
stored, resolve it with `true` and clear the slot; otherwise do
nothing.  The second component lists the resolutions delivered to the
waiting turn (empty = the call had no effect). -/
def Session.confirmObjectives (s : SessionState) : SessionState × List Bool :=
  if s.confirmationPending then ({ s with confirmationPending := false }, [true])
  else (s, [])

/-- Source: `Session.rejectObjectives` (`session.ts`): as above with `false`. -/
def Session.rejectObjectives (s : SessionState) : SessionState × List Bool :=
  if s.confirmationPending then ({ s with confirmationPending := false }, [false])
  else (s, [])

/-- Source: `Session.isAwaitingConfirmation`. -/
def Session.isAwaitingConfirmation (s : SessionState) : Bool :=
  s.confirmationPending

/-- Claim **C6.**  With no pending confirmation gate, `confirmObjectives` and
`rejectObjectives` are no-ops (state unchanged, no resolution
delivered; both are total functions, so neither throws), and once a
gate has been resolved — by either method — every further call to
either method is likewise a no-op: only the first resolution has
effect. -/
theorem c6_confirmation_gate (s : SessionState) :
    (s.confirmationPending = false →
      Session.confirmObjectives s = (s, []) ∧ Session.rejectObjectives s = (s, [])) ∧
    Session.confirmObjectives (Session.confirmObjectives s).1
        = ((Session.confirmObjectives s).1, []) ∧
    Session.rejectObjectives (Session.confirmObjectives s).1
        = ((Session.confirmObjectives s).1, []) ∧
    Session.confirmObjectives (Session.rejectObjectives s).1
        = ((Session.rejectObjectives s).1, []) ∧
    Session.rejectObjectives (Session.rejectObjectives s).1
        = ((Session.rejectObjectives s).1, []) := by
  cases hp : s.confirmationPending <;>
    simp [Session.confirmObjectives, Session.rejectObjectives, hp]

/-- A session state awaiting confirmation, for the C6 witness. -/
def c6Pending : SessionState :=
  { history := [], plannerHistory := [], completedObjectives := [],
    pendingObjectives := [], turnCount := 1, confirmationPending := true,
    abortActive := false }

/-- Witness for C6: resolving the pending gate once delivers `true`;
resolving again (either way) is a no-op, and on a non-pending state
both methods are no-ops. -/
theorem c6_confirmation_gate_witness :
    Session.confirmObjectives c6Pending
      = ({ c6Pending with confirmationPending := false }, [true]) ∧
    Session.confirmObjectives (Session.confirmObjectives c6Pending).1
      = ((Session.confirmObjectives c6Pending).1, []) ∧
    Session.rejectObjectives (Session.confirmObjectives c6Pending).1
      = ((Session.confirmObjectives c6Pending).1, []) ∧
    ({ c6Pending with confirmationPending := false } : SessionState).confirmationPending
        = false ∧
    Session.confirmObjectives { c6Pending with confirmationPending := false }
      = ({ c6Pending with confirmationPending := false }, []) :=
  ⟨rfl, (c6_confirmation_gate c6Pending).2.1, (c6_confirmation_gate c6Pending).2.2.1,
   rfl, ((c6_confirmation_gate { c6Pending with confirmationPending := false }).1 rfl).1⟩

/-! ### C7: the completed-objective ledger only grows

Every mutation the `Session` class performs on its state is one of the
following steps (each constructor names its source site in
`session.ts`): the turn counter increment and user-message push in
`send`; planner-history pushes, pending-list replacement and the
completion bookkeeping in the three handlers; gate arming/resolution;
abort-controller changes.  `completedObjectives` is only ever touched
by `appendCompleted` (the `completedObjectives.push(...)` sites in
`handleConversational`, `handleArc` and `handleTask`). -/

inductive SessionStep : SessionState → SessionState → Prop where
  /-- Source: `this.turnCount++` in `send`. -/
  | incTurn (s : SessionState) :
      SessionStep s { s with turnCount := s.turnCount + 1 }
  /-- Source: `this.history.push(…)` (user message in `send`; assistant
  messages in the handlers and on rejection). -/
  | pushHistory (s : SessionState) (m : Message) :
      SessionStep s { s with history := s.history ++ [m] }
  /-- Source: `this.plannerHistory.push(…)` in `handleTask`. -/
  | pushPlanner (s : SessionState) (m : Message) :
      SessionStep s { s with plannerHistory := s.plannerHistory ++ [m] }
  /-- Source: `this.pendingObjectives = …` (set in the three handlers, cleared
  on completion). -/
  | setPending (s : SessionState) (l : List PlannedObjective) :
      SessionStep s { s with pendingObjectives := l }
  /-- Source: `this.completedObjectives.push(…)` on `complete` in the three
  handlers. -/
  | appendCompleted (s : SessionState) (os : List PlannedObjective) :
      SessionStep s { s with completedObjectives := s.completedObjectives ++ os }
  /-- Arming the confirmation gate in `handleTask`. -/
  | armGate (s : SessionState) :
      SessionStep s { s with confirmationPending := true }
  /-- Resolving the gate (`confirmObjectives` / `rejectObjectives`). -/
  | resolveGate (s : SessionState) :
      SessionStep s { s with confirmationPending := false }
  /-- Source: `this.abortController = …` assignments and `abort()`. -/
  | setAbort (s : SessionState) (b : Bool) :
      SessionStep s { s with abortActive := b }

theorem sessionStep_completed_append {s s' : SessionState} (h : SessionStep s s') :
    ∃ t, s'.completedObjectives = s.completedObjectives ++ t := by
  cases h with
  | appendCompleted os => exact ⟨os, rfl⟩
  | incTurn => exact ⟨[], by simp⟩
  | pushHistory m => exact ⟨[], by simp⟩
  | pushPlanner m => exact ⟨[], by simp⟩
  | setPending l => exact ⟨[], by simp⟩
  | armGate => exact ⟨[], by simp⟩
  | resolveGate => exact ⟨[], by simp⟩
  | setAbort b => exact ⟨[], by simp⟩

/-- Claim **C7.**  Across any sequence of Session operations,
`completedObjectives` only ever grows by appending: the old ledger is
an initial segment of the new one, so its length is monotonically
non-decreasing and every already-appended element is still present,
unchanged, at its original position (never removed, replaced or
mutated; no step re-validates an appended element — none touches the
ledger except the appends). -/
theorem c7_completed_monotone (s s' : SessionState)
    (h : Relation.ReflTransGen SessionStep s s') :
    (∃ t, s'.completedObjectives = s.completedObjectives ++ t) ∧
    s.completedObjectives.length ≤ s'.completedObjectives.length ∧
    ∀ i, i < s.completedObjectives.length →
      s'.completedObjectives[i]? = s.completedObjectives[i]? := by
  have happ : ∃ t, s'.completedObjectives = s.completedObjectives ++ t := by
    induction h with
    | refl => exact ⟨[], by simp⟩
    | tail _ hstep ih =>
        rcases ih with ⟨t1, ht1⟩
        rcases sessionStep_completed_append hstep with ⟨t2, ht2⟩
        exact ⟨t1 ++ t2, by rw [ht2, ht1, List.append_assoc]⟩
  refine ⟨happ, ?_, ?_⟩
  · rcases happ with ⟨t, ht⟩
    rw [ht]; simp
  · intro i hi
    rcases happ with ⟨t, ht⟩
    rw [ht, List.getElem?_append]
    simp [hi]

/-- Concrete objects for the C7 witness. -/
def c7Obj : PlannedObjective :=
  { name := "create_hello_file", description := "Create hello.txt",
    type := "file_exists", params := .obj [("path", .str "hello.txt")] }

def c7Start : SessionState :=
  { history := [], plannerHistory := [], completedObjectives := [],
    pendingObjectives := [c7Obj], turnCount := 1, confirmationPending := false,
    abortActive := false }

/-- Witness for C7: a completion step followed by a history push keeps
the appended objective at index 0. -/
theorem c7_completed_monotone_witness :
    (∃ t, ({ { c7Start with completedObjectives := c7Start.completedObjectives ++ [c7Obj] }
        with history := [] ++ [⟨"assistant", "Completed objectives: create_hello_file"⟩]
      } : SessionState).completedObjectives = c7Start.completedObjectives ++ t) ∧
    c7Start.completedObjectives.length ≤ 1 := by
  have hstep1 : SessionStep c7Start
      { c7Start with completedObjectives := c7Start.completedObjectives ++ [c7Obj] } :=
    SessionStep.appendCompleted c7Start [c7Obj]
  have hstep2 : SessionStep
      { c7Start with completedObjectives := c7Start.completedObjectives ++ [c7Obj] }
      { { c7Start with completedObjectives := c7Start.completedObjectives ++ [c7Obj] }
        with history := [] ++ [⟨"assistant", "Completed objectives: create_hello_file"⟩] } :=
    SessionStep.pushHistory _ _
  have h := c7_completed_monotone c7Start _
    (Relation.ReflTransGen.tail (Relation.ReflTransGen.single hstep1) hstep2)
  exact ⟨h.1, by simp [c7Start]⟩

end SmartAgent
